import Mathlib

set_option maxRecDepth 100000

/-!
# Verification of nodular's node tree, alias maintenance and path traversal

Shallow embedding of the core of the `nodular` library:

* `nodular/node.py` — `pathjoin`, `Node._validate_name` (name validation and
  alias creation on rename), `Node._update_path` (materialized-path cascade
  with the 1000-character guard), `Node.getnode`, `Node.getprop`,
  `_node_name_listener`, `_node_parent_listener`, `_node_flush_listener`
  (gone-marker aliases on deletion), and the `NodeAlias` model.
* `nodular/publisher.py` — `_make_path_tree`, `NodePublisher.traverse` and
  `NodePublisher.publish`.
* `nodular/exceptions.py` — the error classes.

Python unicode strings are sequences of codepoints; they are embedded as
`List Char` (named `Ustr`), with each Python string primitive the source uses
(`startswith`, `endswith`, `strip`, `split`, slicing, `len`, `in`) given an
explicit executable model below.  Machine state (SQLAlchemy session plus
database) is an explicit `NodeDB` value holding node rows and alias rows;
ORM queries become list lookups, and the ORM event listeners become explicit
steps inside the mutation functions, in the order SQLAlchemy runs them
(`@validates` first, then the attribute `set` listeners, then the attribute
assignment itself).
-/

/-! ## Python string primitives over codepoint lists -/

/-- A Python unicode string, as its list of codepoints. -/
abbrev Ustr := List Char

/-- Embed a Lean string literal as a `Ustr`. -/
def us (x : String) : Ustr := x.data

/-- Python `a.startswith(p)`. -/
def strStartsWith (a p : Ustr) : Bool := p.isPrefixOf a

/-- Python `a.endswith(p)`. -/
def strEndsWith (a p : Ustr) : Bool := p.isSuffixOf a

/-- Python `c in a` for a single-character needle. -/
def strContains (a : Ustr) (c : Char) : Bool := a.contains c

/-- Python `a.strip()`: remove surrounding whitespace. -/
def strTrim (a : Ustr) : Ustr :=
  ((a.dropWhile Char.isWhitespace).reverse.dropWhile Char.isWhitespace).reverse

/-- Python `s.split(c)` for a one-character separator (splits on every
occurrence, keeping empty pieces; `''.split('/') == ['']`). -/
def splitOnChar (c : Char) (l : Ustr) : List Ustr :=
  match l with
  | [] => [[]]
  | x :: xs =>
    let r := splitOnChar c xs
    if x = c then [] :: r
    else
      match r with
      | [] => [[x]]
      | y :: ys => (x :: y) :: ys

/-- Python `sep.join(xs)`. -/
def strJoin (sep : Ustr) (xs : List Ustr) : Ustr := List.intercalate sep xs

/-! ## Path engine -/

/-- `pathjoin a b` (node.py `pathjoin`, one extra component): if `b` is
absolute it discards `a`; if `a` is empty or ends in `/` they concatenate;
otherwise a single `/` separator is inserted. -/
def pathjoin2 (a b : Ustr) : Ustr :=
  if strStartsWith b (us "/") then b
  else if a = [] || strEndsWith a (us "/") then a ++ b
  else a ++ us "/" ++ b

/-- `pathjoin a b c` (node.py `pathjoin` with two extra components):
left fold of the binary join. -/
def pathjoin3 (a b c : Ustr) : Ustr :=
  pathjoin2 (pathjoin2 a b) c

/-- Python `s.split('/', 1)`: the text before the first `/`, and the
remainder after it when a `/` occurs. -/
def splitFirstSeg (s : Ustr) : Ustr × Option Ustr :=
  match splitOnChar '/' s with
  | [] => (s, none)
  | [x] => (x, none)
  | x :: rest => (x, some (strJoin (us "/") rest))

/-- Replace the head of a list of paths by `"/"`
(publisher.py: `searchpaths[0] = u'/'`). -/
def setHeadRoot : List Ustr → List Ustr
  | [] => []
  | _ :: t => us "/" :: t

/-- `_make_path_tree` (publisher.py): join `path` onto `basepath` after
stripping its leading/trailing slash, and produce the ordered list of every
ancestor path from `/` down to the target. -/
def makePathTree (basepath path : Ustr) : Ustr × List Ustr :=
  let path1 := if strStartsWith path (us "/") then path.drop 1 else path
  let path2 := if strEndsWith path1 (us "/") then path1.dropLast else path1
  let searchpath := if path2 = [] then basepath else pathjoin2 basepath path2
  if searchpath = us "/" then (searchpath, [us "/"])
  else
    let parts := splitOnChar '/' searchpath
    let searchpaths := (List.range parts.length).map
      (fun x => strJoin (us "/") (parts.take (x + 1)))
    (searchpath, setHeadRoot searchpaths)

-- The doctests of `_make_path_tree`, reproduced as sanity checks.
example : makePathTree (us "/") (us "") = (us "/", [us "/"]) := by decide
example : makePathTree (us "/") (us "/") = (us "/", [us "/"]) := by decide
example : makePathTree (us "/") (us "/foo") = (us "/foo", [us "/", us "/foo"]) := by decide
example : makePathTree (us "/") (us "/foo/") = (us "/foo", [us "/", us "/foo"]) := by decide
example : makePathTree (us "/") (us "foo") = (us "/foo", [us "/", us "/foo"]) := by decide
example : makePathTree (us "/") (us "/foo/bar") =
    (us "/foo/bar", [us "/", us "/foo", us "/foo/bar"]) := by decide
example : makePathTree (us "/") (us "foo/bar") =
    (us "/foo/bar", [us "/", us "/foo", us "/foo/bar"]) := by decide
example : makePathTree (us "/") (us "/foo/bar/baz") =
    (us "/foo/bar/baz", [us "/", us "/foo", us "/foo/bar", us "/foo/bar/baz"]) := by decide
example : makePathTree (us "/foo") (us "") = (us "/foo", [us "/", us "/foo"]) := by decide
example : makePathTree (us "/foo") (us "/bar") =
    (us "/foo/bar", [us "/", us "/foo", us "/foo/bar"]) := by decide
example : makePathTree (us "/foo") (us "/bar/") =
    (us "/foo/bar", [us "/", us "/foo", us "/foo/bar"]) := by decide
example : makePathTree (us "/foo") (us "bar") =
    (us "/foo/bar", [us "/", us "/foo", us "/foo/bar"]) := by decide

/-! ## Data model

A `DNode` is one row of the `node` table (the columns the verified operations
read), an `NodeAlias` one row of the `nodealias` table, and a `NodeDB` the
visible store state.  `parentId = none` models a root node.  The alias
`parentId` is an `Option` to mirror the in-memory object (the column itself is
non-nullable, enforced only at flush time); `nodeId = none` is the gone-marker
(`410` rather than `302`). -/

structure DNode where
  id : Nat
  name : Ustr
  parentId : Option Nat
  rootId : Nat
  path : Ustr
  type : Ustr
  itype : Option Ustr
  deriving Repr, DecidableEq, Inhabited

structure NodeAlias where
  parentId : Option Nat
  name : Ustr
  nodeId : Option Nat
  deriving Repr, DecidableEq

structure NodeDB where
  nodes : List DNode
  aliases : List NodeAlias
  deriving Repr, DecidableEq

/-- `Node.query.get(nid)` — point lookup by primary key. -/
def getNode (db : NodeDB) (nid : Nat) : Option DNode :=
  db.nodes.find? (fun n => n.id = nid)

/-- `NodeAlias.query.get((parent_id, name))` and
`NodeAlias.query.filter_by(parent=..., name=...).first()` — point lookup by
the composite key. -/
def aliasAt (als : List NodeAlias) (p : Option Nat) (nm : Ustr) : Option NodeAlias :=
  als.find? (fun a => a.parentId = p ∧ a.name = nm)

/-- The `alias.node` relationship: the row `node_id` refers to, when set.
With the `SET NULL` foreign key a non-null `node_id` always resolves. -/
def aliasNodeIn (db : NodeDB) (a : NodeAlias) : Option DNode :=
  match a.nodeId with
  | none => none
  | some nid => getNode db nid

/-- Codepoint-wise lexicographic order, the `ORDER BY` used on text columns. -/
def strLt : Ustr → Ustr → Bool
  | [], [] => false
  | [], _ :: _ => true
  | _ :: _, [] => false
  | a :: as, b :: bs =>
    if a.toNat < b.toNat then true
    else if b.toNat < a.toNat then false
    else strLt as bs

/-- Insert into a list sorted ascending by `path`. -/
def insertByPath (n : DNode) : List DNode → List DNode
  | [] => [n]
  | m :: ms => if strLt m.path n.path then m :: insertByPath n ms else n :: m :: ms

/-- Sort rows ascending by `path` (`order_by('path')`). -/
def sortByPath : List DNode → List DNode
  | [] => []
  | n :: ns => insertByPath n (sortByPath ns)

/-- Insert into a list sorted ascending by `name`. -/
def insertByName (n : DNode) : List DNode → List DNode
  | [] => [n]
  | m :: ms => if strLt m.name n.name then m :: insertByName n ms else n :: m :: ms

/-- Sort rows ascending by `name` (`order_by='Node.name'` on `_nodes`). -/
def sortByName : List DNode → List DNode
  | [] => []
  | n :: ns => insertByName n (sortByName ns)

/-- The `_nodes` relationship: children of a node, ordered by name. -/
def childrenOf (db : NodeDB) (nid : Nat) : List DNode :=
  sortByName (db.nodes.filter (fun n => n.parentId = some nid))

/-- The traversal query (publisher.py line 195):
`Node.query.filter(Node._root_id == root_id, Node.path.in_(searchpaths)).order_by('path').all()`. -/
def fetchNodes (db : NodeDB) (rootId : Nat) (searchpaths : List Ustr) : List DNode :=
  sortByPath (db.nodes.filter (fun n => n.rootId = rootId ∧ n.path ∈ searchpaths))

/-- `nodes.get(name)` on a `ProxyDict`:
`self.collection.filter_by(name=key).first()` over the `_nodes` relation. -/
def nodesGet (db : NodeDB) (nid : Nat) (nm : Ustr) : Option DNode :=
  db.nodes.find? (fun n => n.parentId = some nid ∧ n.name = nm)

/-- `Node.getnode(name, default)` (node.py lines 281-287). -/
def getnode (db : NodeDB) (nid : Nat) (nm : Ustr) (dflt : Option DNode) : Option DNode :=
  match nodesGet db nid nm with
  | some _ =>
    match aliasAt db.aliases (some nid) nm with
    | some a =>
      match aliasNodeIn db a with
      | some t => some t
      | none => dflt
    | none => dflt
  | none => dflt

/-- `Node.etype`: `self.itype or self.type` (itype empty or absent falls back
to the polymorphic type). -/
def etype (n : DNode) : Ustr :=
  match n.itype with
  | some i => if i = [] then n.type else i
  | none => n.type

/-! ## Traversal resolver -/

/-- `TRAVERSE_STATUS` (publisher.py): `exactMatch` is MATCH, `redirect` is
REDIRECT, `subMatch` is PARTIAL, `noroot` is NOROOT, `gone` is GONE. -/
inductive TravStatus
  | exactMatch
  | redirect
  | subMatch
  | noroot
  | gone
  deriving Repr, DecidableEq

/-- The publisher configuration: the root node's id plus the `basepath` and
`urlpath` the constructor stored. -/
structure NodePublisher where
  rootId : Nat
  basepath : Ustr
  urlpath : Ustr
  deriving Repr, DecidableEq

/-- Leading-slash normalization at the top of `traverse`. -/
def normSlash (p : Ustr) : Ustr :=
  if strStartsWith p (us "/") then p else us "/" ++ p

/-- The unmatched remainder: `nodepath[len(lastnode.path):]` with a leading
slash stripped (publisher.py lines 212-216). -/
def fragOf (lastnode : DNode) (nodepath : Ustr) : Ustr :=
  let f := nodepath.drop lastnode.path.length
  if strStartsWith f (us "/") then f.drop 1 else f

/-- The corrected redirect target (publisher.py lines 231-239): substitute
the alias target's current name for the stale first segment of the fragment,
strip the `basepath` coordinate space and re-join onto `urlpath`. -/
def redirectTarget (pub : NodePublisher) (lastnode target : DNode) (frag : Ustr) : Ustr :=
  let rp :=
    match (splitFirstSeg frag).2 with
    | some rest => pathjoin3 lastnode.path target.name rest
    | none => pathjoin2 lastnode.path target.name
  let rp2 := rp.drop pub.basepath.length
  if strStartsWith rp2 (us "/") then pathjoin2 pub.urlpath (rp2.drop 1)
  else pathjoin2 pub.urlpath rp2

/-- The tail of `traverse` once a partial match is established
(publisher.py lines 212-253): alias lookup under the last matched node. -/
def traverseTail (db : NodeDB) (pub : NodePublisher) (lastnode : DNode) (nodepath : Ustr)
    (redirect : Bool) : TravStatus × Option DNode × Option Ustr :=
  if redirect then
    match aliasAt db.aliases (some lastnode.id) (splitFirstSeg (fragOf lastnode nodepath)).1 with
    | none => (.subMatch, some lastnode, some (us "/" ++ fragOf lastnode nodepath))
    | some al =>
      match aliasNodeIn db al with
      | none => (.gone, some lastnode, some (us "/" ++ fragOf lastnode nodepath))
      | some target =>
        (.redirect, some lastnode, some (redirectTarget pub lastnode target (fragOf lastnode nodepath)))
  else (.subMatch, some lastnode, some (us "/" ++ fragOf lastnode nodepath))

/-- `traverse` after the `urlpath` check, on the basepath-relative path
(publisher.py lines 192-210): decompose, fetch the ancestor chain, classify.
`nodes[-1]` is `getLast?`; the source's `len(nodes) > 0 and nodes[-1].path ==
nodepath` then `len(nodes) == 0` tests are the two match arms here. -/
def traverseRel (db : NodeDB) (pub : NodePublisher) (rel : Ustr) (redirect : Bool) :
    TravStatus × Option DNode × Option Ustr :=
  match (fetchNodes db pub.rootId (makePathTree pub.basepath rel).2).getLast? with
  | none => (.noroot, none, none)
  | some lastnode =>
    if lastnode.path = (makePathTree pub.basepath rel).1 then (.exactMatch, some lastnode, none)
    else if lastnode.path.length < pub.basepath.length then (.noroot, none, none)
    else traverseTail db pub lastnode (makePathTree pub.basepath rel).1 redirect

/-- `NodePublisher.traverse` (publisher.py lines 163-253). -/
def NodePublisher.traverse (db : NodeDB) (pub : NodePublisher) (path : Ustr) (redirect : Bool) :
    TravStatus × Option DNode × Option Ustr :=
  if strStartsWith (normSlash path) pub.urlpath then
    traverseRel db pub ((normSlash path).drop pub.urlpath.length) redirect
  else (.noroot, none, some (normSlash path))

/-! ## Tree maintenance: rename, reparent, delete

The ORM event listeners are modelled as explicit steps.  Setting `node.name`
runs, in order: the `@validates('name')` validator `_validate_name`
(assertions, then the vacated-name alias upsert), then the `set` listener
`_node_name_listener` (`_update_path` cascade, which can raise mid-cascade),
then the attribute assignment itself.  An exception anywhere aborts the later
steps but leaves the earlier side effects in place, so the mutation functions
return `Except (MutationErr × NodeDB) NodeDB`, the error carrying the session
state at raise time. -/

inductive MutationErr
  | invalidName
  | pathTooLong
  deriving Repr, DecidableEq

/-- Overwrite a node's `path` (the `self._path = path` assignment). -/
def setNodePathIn (nodes : List DNode) (nid : Nat) (p : Ustr) : List DNode :=
  nodes.map (fun n => if n.id = nid then { n with path := p } else n)

/-- Overwrite a node's `name`. -/
def setNodeNameIn (nodes : List DNode) (nid : Nat) (nm : Ustr) : List DNode :=
  nodes.map (fun n => if n.id = nid then { n with name := nm } else n)

/-- Overwrite a node's `parent` reference. -/
def setNodeParentIn (nodes : List DNode) (nid : Nat) (p : Option Nat) : List DNode :=
  nodes.map (fun n => if n.id = nid then { n with parentId := p } else n)

/-- Overwrite a node's `_root` reference. -/
def setNodeRootIn (nodes : List DNode) (nid : Nat) (r : Nat) : List DNode :=
  nodes.map (fun n => if n.id = nid then { n with rootId := r } else n)

/-- Repoint the first alias row matching the key (`alias.node = self` /
`alias.node = None` on the row `query.get` returned). -/
def repointFirst : List NodeAlias → Option Nat → Ustr → Option Nat → List NodeAlias
  | [], _, _, _ => []
  | a :: as, p, nm, t =>
    if a.parentId = p ∧ a.name = nm then { a with nodeId := t } :: as
    else a :: repointFirst as p nm t

/-- Look up the alias at `(parent, name)`; create it pointing at `target` if
absent, else repoint the existing row in place (node.py lines 221-225 and
375-380). -/
def upsertAliasList (als : List NodeAlias) (p : Option Nat) (nm : Ustr) (target : Option Nat) :
    List NodeAlias :=
  if (aliasAt als p nm).isSome then repointFirst als p nm target
  else als ++ [⟨p, nm, target⟩]

/-- `Node._update_path` (node.py lines 246-259) as a depth-first worklist.
Each task is `(node id, explicit new parent or the node's own, new name)`;
processing a task computes the node's new path, fails the whole run when it
exceeds 1000 characters (leaving the updates already applied in place, as the
raised `ValueError` does), otherwise stores it and pushes the node's children
(in name order) in front of the remaining work — exactly the source's
recursion order.  `fuel` only bounds the recursion; with `fuel >` the subtree
size (always true for acyclic parent links) it never runs out. -/
def updatePathRun : Nat → NodeDB → List (Nat × Option Nat × Option Ustr) → NodeDB × Bool
  | 0, db, _ => (db, true)
  | _ + 1, db, [] => (db, true)
  | f + 1, db, (nid, np, nn) :: rest =>
    match getNode db nid with
    | none => updatePathRun f db rest
    | some node =>
      let useparentId := match np with | some p => some p | none => node.parentId
      match useparentId.bind (getNode db) with
      | none =>
        -- `if not useparent: self._path = u'/'` — root; the name is irrelevant
        let db' := { db with nodes := setNodePathIn db.nodes nid (us "/") }
        updatePathRun f db' ((childrenOf db' nid).map (fun c => (c.id, none, none)) ++ rest)
      | some up =>
        -- `path = pathjoin(useparent.path, (newname or self.name or u''))`
        let nm := match nn with
          | some v => if v = [] then node.name else v
          | none => node.name
        let path := pathjoin2 up.path nm
        if path.length > 1000 then (db, false)
        else
          let db' := { db with nodes := setNodePathIn db.nodes nid path }
          updatePathRun f db' ((childrenOf db' nid).map (fun c => (c.id, none, none)) ++ rest)

/-- One `_update_path` call on a node (with optional explicit new parent and
new name), returning the state reached and whether it completed. -/
def updatePath (db : NodeDB) (nid : Nat) (np : Option Nat) (nn : Option Ustr) : NodeDB × Bool :=
  updatePathRun (db.nodes.length + 1) db [(nid, np, nn)]

/-- `Node._update_root` (node.py lines 266-269): propagate a new root id
through the subtree, depth-first. -/
def updateRootRun : Nat → NodeDB → List Nat → Nat → NodeDB
  | 0, db, _, _ => db
  | _ + 1, db, [], _ => db
  | f + 1, db, nid :: rest, rootId =>
    let db' := { db with nodes := setNodeRootIn db.nodes nid rootId }
    updateRootRun f db' ((childrenOf db' nid).map (·.id) ++ rest) rootId

def updateRoot (db : NodeDB) (nid : Nat) (rootId : Nat) : NodeDB :=
  updateRootRun (db.nodes.length + 1) db [nid] rootId

/-- Setting `node.name = value`: `_validate_name` (node.py lines 212-228),
then `_node_name_listener` (lines 352-356), then the assignment.  In this
model every stored node has a name, so the validator's `self.name is not
None` guard (false only during initial construction) holds. -/
def setName (db : NodeDB) (nid : Nat) (value : Option Ustr) :
    Except (MutationErr × NodeDB) NodeDB :=
  match getNode db nid with
  | none => .error (.invalidName, db)
  | some node =>
    match value with
    | none => .error (.invalidName, db)     -- `assert value is not None`
    | some v0 =>
      if strContains v0 '/' then .error (.invalidName, db)   -- `assert u'/' not in value`
      else
        let v := strTrim v0                 -- `value = value.strip()`
        if v = [] then .error (.invalidName, db)             -- `assert value != u''`
        else
          -- `if value != self.name and self.name is not None:` — vacate the old name
          let db1 :=
            if v ≠ node.name then
              { db with aliases := upsertAliasList db.aliases node.parentId node.name (some nid) }
            else db
          -- `_node_name_listener`: `if value != oldvalue: target._update_path(newname=value)`
          if v = node.name then .ok db1
          else
            match updatePath db1 nid none (some v) with
            | (db2, true) => .ok { db2 with nodes := setNodeNameIn db2.nodes nid v }
            | (db2, false) => .error (.pathTooLong, db2)

/-- Setting `node.parent = value`: `_node_parent_listener` (node.py lines
338-349), then the assignment.  A non-null new parent must resolve to a row;
the orphaning branch passes the node itself as `newparent`, exactly as the
source does. -/
def setParent (db : NodeDB) (nid : Nat) (value : Option Nat) :
    Except (MutationErr × NodeDB) NodeDB :=
  match getNode db nid with
  | none => .error (.invalidName, db)
  | some node =>
    if value = node.parentId then .ok db    -- `if value != oldvalue` fails: no listener work
    else
      match value with
      | some pid =>
        match getNode db pid with
        | none => .error (.invalidName, db)
        | some p =>
          let db1 := if node.rootId ≠ p.rootId then updateRoot db nid p.rootId else db
          match updatePath db1 nid (some pid) none with
          | (db2, true) => .ok { db2 with nodes := setNodeParentIn db2.nodes nid (some pid) }
          | (db2, false) => .error (.pathTooLong, db2)
      | none =>
        -- orphaned: `target._update_root(target); target._update_path(newparent=target)`
        let db1 := updateRoot db nid nid
        match updatePath db1 nid (some nid) none with
        | (db2, true) => .ok { db2 with nodes := setNodeParentIn db2.nodes nid none }
        | (db2, false) => .error (.pathTooLong, db2)

/-- Ids of a node and all its descendants (the rows the database-level
`ON DELETE CASCADE` removes). -/
def subtreeRun : Nat → NodeDB → List Nat → List Nat
  | 0, _, _ => []
  | _ + 1, _, [] => []
  | f + 1, db, nid :: rest => nid :: subtreeRun f db ((childrenOf db nid).map (·.id) ++ rest)

def subtreeIds (db : NodeDB) (nid : Nat) : List Nat :=
  subtreeRun (db.nodes.length + 1) db [nid]

/-- `session.delete(node)` followed by a flush.  `_node_flush_listener`
(node.py lines 366-380) sees exactly the objects in `session._deleted` — the
node passed to `delete`, not the descendants removed by the database-level
cascade (the relationship is `lazy='dynamic'` with `passive_deletes=True`,
so the ORM never loads them to delete them) — and, when the node has a
parent, looks up or creates the alias at `(parent, name)` as a gone-marker.
The flush then removes the subtree's node rows, cascade-deletes alias rows
whose parent row went away, and nulls alias references to deleted rows
(`ondelete='SET NULL'`). -/
def deleteNode (db : NodeDB) (nid : Nat) : NodeDB :=
  match getNode db nid with
  | none => db
  | some obj =>
    let doomed := subtreeIds db nid
    let als1 :=
      if obj.parentId ≠ none then upsertAliasList db.aliases obj.parentId obj.name none
      else db.aliases
    let nodes' := db.nodes.filter (fun n => ¬ n.id ∈ doomed)
    let als2 := als1.filter (fun a =>
      match a.parentId with
      | some p => ¬ p ∈ doomed
      | none => true)
    let als3 := als2.map (fun a =>
      match a.nodeId with
      | some t => if t ∈ doomed then { a with nodeId := none } else a
      | none => a)
    { nodes := nodes', aliases := als3 }

/-! ## Publisher: `publish` and the error taxonomy -/

/-- The error classes of nodular/exceptions.py that `publish` raises, plus
`viewNotFound` (raised at dispatch time when no handler matches). -/
inductive NodErr
  | rootNotFound
  | nodeGone
  | viewNotFound
  deriving Repr, DecidableEq

/-- What `publish` does with a traversal result: return a 302 redirect, raise
an error, or dispatch a path-info string against the rule table of the
matched node's effective type. -/
inductive PublishResult
  | redirected (code : Nat) (location : Ustr)
  | raised (e : NodErr)
  | dispatched (etype : Ustr) (pathInfo : Ustr)
  deriving Repr, DecidableEq

/-- `NodePublisher.publish` (publisher.py lines 255-281): branch on the
traversal status.  In the MATCH/PARTIAL branches the source reads `node.etype`
and dispatches `'/'` or the residual fragment; the `getD` defaults model the
attribute accesses that cannot be `None` in those branches. -/
def publish (db : NodeDB) (pub : NodePublisher) (path : Ustr) : PublishResult :=
  let r := NodePublisher.traverse db pub path true
  match r.1 with
  | .redirect => .redirected 302 (r.2.2.getD [])
  | .noroot => .raised .rootNotFound
  | .gone => .raised .nodeGone
  | .exactMatch => .dispatched (etype (r.2.1.getD default)) (us "/")
  | .subMatch => .dispatched (etype (r.2.1.getD default)) (r.2.2.getD [])

/-! ## Property inheritance: `getprop`

`Node.getprop` walks the in-memory `parent` chain of objects.  That chain is
embedded as the inductive `PNode`: a node is either a root or has a parent,
and carries its `properties` mapping (value type left abstract). -/

inductive PNode (α : Type) where
  | root (props : List (Ustr × α))
  | child (props : List (Ustr × α)) (parent : PNode α)

/-- The node's own `properties` mapping. -/
def PNode.props : PNode α → List (Ustr × α)
  | .root ps => ps
  | .child ps _ => ps

/-- Python `key in node.properties`. -/
def hasKey (ps : List (Ustr × α)) (k : Ustr) : Bool :=
  ps.any (fun kv => kv.1 = k)

/-- Python `node.properties[key]` (first binding wins). -/
def propVal [Inhabited α] (ps : List (Ustr × α)) (k : Ustr) : α :=
  match ps.find? (fun kv => kv.1 = k) with
  | some kv => kv.2
  | none => default

/-- `Node.getprop(key, default)` (node.py lines 289-296): walk from the node
up through the parent chain, return the first hit, else the default. -/
def getprop [Inhabited α] : PNode α → Ustr → α → α
  | .root ps, k, dflt => if hasKey ps k then propVal ps k else dflt
  | .child ps p, k, dflt => if hasKey ps k then propVal ps k else getprop p k dflt

/-- The node together with its ancestors, nearest first (the nodes the
`while` loop of `getprop` visits, in visit order). -/
def chain : PNode α → List (PNode α)
  | .root ps => [.root ps]
  | .child ps p => .child ps p :: chain p

/-! ## Derived state helpers used by the theorems -/

/-- The composite keys of the alias rows. -/
def aliasKeys (als : List NodeAlias) : List (Option Nat × Ustr) :=
  als.map (fun a => (a.parentId, a.name))

/-- A node row without its `path` and `root` (the parts of a row no
`_update_path` / `_update_root` cascade may touch). -/
def idNamePar (n : DNode) : Nat × Ustr × Option Nat :=
  (n.id, n.name, n.parentId)

/-- The session state a `node.name = value` assignment leaves behind, whether
or not it raised (an exception leaves the side effects already performed in
place). -/
def setNameState (db : NodeDB) (nid : Nat) (v : Option Ustr) : NodeDB :=
  match setName db nid v with
  | .ok d => d
  | .error (_, d) => d

/-- A sequence of name assignments, each applied to the state the previous
one left behind. -/
def renameSeq (db : NodeDB) (ops : List (Nat × Option Ustr)) : NodeDB :=
  ops.foldl (fun d op => setNameState d op.1 op.2) db

/-! ## Alias upsert lemmas -/

theorem repointFirst_keys (als : List NodeAlias) (p : Option Nat) (nm : Ustr) (t : Option Nat) :
    aliasKeys (repointFirst als p nm t) = aliasKeys als := by
  induction als with
  | nil => rfl
  | cons a as ih =>
    by_cases h : a.parentId = p ∧ a.name = nm
    · simp [repointFirst, h, aliasKeys]
    · simp [repointFirst, h, aliasKeys] at ih ⊢
      exact ih

theorem aliasAt_repointFirst_self (als : List NodeAlias) (p : Option Nat) (nm : Ustr)
    (t : Option Nat) (h : (aliasAt als p nm).isSome) :
    aliasAt (repointFirst als p nm t) p nm = some ⟨p, nm, t⟩ := by
  induction als with
  | nil => simp [aliasAt] at h
  | cons a as ih =>
    by_cases ha : a.parentId = p ∧ a.name = nm
    · simp only [repointFirst, if_pos ha, aliasAt]
      rw [List.find?_cons_of_pos]
      · congr 1
        cases a
        simp_all
      · simp [ha.1, ha.2]
    · simp only [repointFirst, if_neg ha, aliasAt, List.find?_cons]
      have hne : ¬ (a.parentId = p ∧ a.name = nm) := ha
      simp only [aliasAt, List.find?_cons] at h
      rw [decide_eq_false hne] at h ⊢
      exact ih h

theorem aliasAt_repointFirst_other (als : List NodeAlias) (p q : Option Nat) (nm m : Ustr)
    (t : Option Nat) (h : (q, m) ≠ (p, nm)) :
    aliasAt (repointFirst als p nm t) q m = aliasAt als q m := by
  induction als with
  | nil => rfl
  | cons a as ih =>
    by_cases ha : a.parentId = p ∧ a.name = nm
    · have hq : ¬ (a.parentId = q ∧ a.name = m) := by
        rintro ⟨rfl, rfl⟩
        exact h (by rw [ha.1, ha.2])
      simp only [repointFirst, if_pos ha, aliasAt, List.find?_cons]
      rw [decide_eq_false hq]
    · simp only [repointFirst, if_neg ha, aliasAt, List.find?_cons]
      cases hd : decide (a.parentId = q ∧ a.name = m) with
      | true => rfl
      | false => exact ih

theorem aliasAt_upsert_self (als : List NodeAlias) (p : Option Nat) (nm : Ustr)
    (t : Option Nat) : aliasAt (upsertAliasList als p nm t) p nm = some ⟨p, nm, t⟩ := by
  unfold upsertAliasList
  by_cases h : (aliasAt als p nm).isSome
  · rw [if_pos h]
    exact aliasAt_repointFirst_self als p nm t h
  · rw [if_neg h]
    have hnone : aliasAt als p nm = none := by
      cases hx : aliasAt als p nm
      · rfl
      · rw [hx] at h; simp at h
    unfold aliasAt at hnone ⊢
    rw [List.find?_append, hnone]
    simp

theorem aliasAt_upsert_other (als : List NodeAlias) (p q : Option Nat) (nm m : Ustr)
    (t : Option Nat) (h : (q, m) ≠ (p, nm)) :
    aliasAt (upsertAliasList als p nm t) q m = aliasAt als q m := by
  unfold upsertAliasList
  by_cases hs : (aliasAt als p nm).isSome
  · rw [if_pos hs]
    exact aliasAt_repointFirst_other als p q nm m t h
  · rw [if_neg hs]
    unfold aliasAt
    rw [List.find?_append]
    have : List.find? (fun a => decide (a.parentId = q ∧ a.name = m)) [(⟨p, nm, t⟩ : NodeAlias)] = none := by
      simp only [List.find?_cons, List.find?_nil]
      have : ¬ ((⟨p, nm, t⟩ : NodeAlias).parentId = q ∧ (⟨p, nm, t⟩ : NodeAlias).name = m) := by
        rintro ⟨rfl, rfl⟩
        exact h rfl
      rw [decide_eq_false this]
    rw [this]
    cases List.find? (fun a => decide (a.parentId = q ∧ a.name = m)) als <;> rfl

theorem aliasAt_eq_none_iff (als : List NodeAlias) (p : Option Nat) (nm : Ustr) :
    aliasAt als p nm = none ↔ (p, nm) ∉ aliasKeys als := by
  unfold aliasAt aliasKeys
  rw [List.find?_eq_none]
  constructor
  · intro h hmem
    obtain ⟨a, hma, hk⟩ := List.mem_map.mp hmem
    have := h a hma
    simp only [decide_eq_true_eq] at this
    cases hk
    exact this ⟨rfl, rfl⟩
  · intro h a hma
    simp only [decide_eq_true_eq]
    rintro ⟨h1, h2⟩
    exact h (List.mem_map.mpr ⟨a, hma, by rw [h1, h2]⟩)

theorem upsert_eq_append_of_none (als : List NodeAlias) (p : Option Nat) (nm : Ustr)
    (t : Option Nat) (h : aliasAt als p nm = none) :
    upsertAliasList als p nm t = als ++ [⟨p, nm, t⟩] := by
  unfold upsertAliasList
  rw [h]
  rfl

theorem upsert_keys_of_isSome (als : List NodeAlias) (p : Option Nat) (nm : Ustr)
    (t : Option Nat) (h : (aliasAt als p nm).isSome) :
    aliasKeys (upsertAliasList als p nm t) = aliasKeys als := by
  unfold upsertAliasList
  rw [if_pos h]
  exact repointFirst_keys als p nm t

theorem aliasKeys_upsert_mem (als : List NodeAlias) (p : Option Nat) (nm : Ustr)
    (t : Option Nat) (q : Option Nat) (m : Ustr)
    (h : (q, m) ∈ aliasKeys (upsertAliasList als p nm t)) :
    (q, m) ∈ aliasKeys als ∨ (q, m) = (p, nm) := by
  unfold upsertAliasList at h
  by_cases hs : (aliasAt als p nm).isSome
  · rw [if_pos hs, repointFirst_keys] at h
    exact Or.inl h
  · rw [if_neg hs] at h
    unfold aliasKeys at h ⊢
    rw [List.map_append] at h
    rcases List.mem_append.mp h with h1 | h2
    · exact Or.inl h1
    · simp at h2
      exact Or.inr (by simp [h2])

theorem upsert_keys_nodup (als : List NodeAlias) (p : Option Nat) (nm : Ustr)
    (t : Option Nat) (h : (aliasKeys als).Nodup) :
    (aliasKeys (upsertAliasList als p nm t)).Nodup := by
  by_cases hs : (aliasAt als p nm).isSome
  · rw [upsert_keys_of_isSome als p nm t hs]
    exact h
  · have hnone : aliasAt als p nm = none := by
      cases hx : aliasAt als p nm
      · rfl
      · rw [hx] at hs; simp at hs
    rw [upsert_eq_append_of_none als p nm t hnone]
    unfold aliasKeys
    rw [List.map_append]
    apply List.Nodup.append h (by simp)
    intro x hx hy
    simp only [List.map_cons, List.map_nil, List.mem_singleton] at hy
    subst hy
    exact (aliasAt_eq_none_iff als p nm).mp hnone hx

/-! ## Cascade preservation lemmas: `_update_path` and `_update_root` touch
only `path` / `root` columns and never the alias table -/

theorem setNodePathIn_idNamePar (ns : List DNode) (nid : Nat) (p : Ustr) :
    (setNodePathIn ns nid p).map idNamePar = ns.map idNamePar := by
  unfold setNodePathIn
  rw [List.map_map]
  apply List.map_congr_left
  intro n _
  by_cases h : n.id = nid <;> simp [h, idNamePar]

theorem setNodeRootIn_idNamePar (ns : List DNode) (nid : Nat) (r : Nat) :
    (setNodeRootIn ns nid r).map idNamePar = ns.map idNamePar := by
  unfold setNodeRootIn
  rw [List.map_map]
  apply List.map_congr_left
  intro n _
  by_cases h : n.id = nid <;> simp [h, idNamePar]

theorem setNodePathIn_length (ns : List DNode) (nid : Nat) (p : Ustr) :
    (setNodePathIn ns nid p).length = ns.length := by
  unfold setNodePathIn
  exact List.length_map ns _

theorem updatePathRun_aliases (f : Nat) (db : NodeDB) (ts : List (Nat × Option Nat × Option Ustr)) :
    ((updatePathRun f db ts).1).aliases = db.aliases := by
  induction f generalizing db ts with
  | zero => rfl
  | succ f ih =>
    match ts with
    | [] => rfl
    | (nid, np, nn) :: rest =>
      simp only [updatePathRun]
      split
      · exact ih db rest
      · split
        · exact ih _ _
        · split
          · rfl
          · exact ih _ _

theorem updatePathRun_idNamePar (f : Nat) (db : NodeDB) (ts : List (Nat × Option Nat × Option Ustr)) :
    ((updatePathRun f db ts).1).nodes.map idNamePar = db.nodes.map idNamePar := by
  induction f generalizing db ts with
  | zero => rfl
  | succ f ih =>
    match ts with
    | [] => rfl
    | (nid, np, nn) :: rest =>
      simp only [updatePathRun]
      split
      · exact ih db rest
      · split
        · rw [ih _ _]
          exact setNodePathIn_idNamePar db.nodes nid (us "/")
        · split
          · rfl
          · rw [ih _ _]
            exact setNodePathIn_idNamePar db.nodes nid _

theorem updateRootRun_aliases (f : Nat) (db : NodeDB) (ts : List Nat) (r : Nat) :
    ((updateRootRun f db ts r)).aliases = db.aliases := by
  induction f generalizing db ts with
  | zero => rfl
  | succ f ih =>
    match ts with
    | [] => rfl
    | nid :: rest =>
      simp only [updateRootRun]
      exact ih _ _

theorem updateRootRun_idNamePar (f : Nat) (db : NodeDB) (ts : List Nat) (r : Nat) :
    ((updateRootRun f db ts r)).nodes.map idNamePar = db.nodes.map idNamePar := by
  induction f generalizing db ts with
  | zero => rfl
  | succ f ih =>
    match ts with
    | [] => rfl
    | nid :: rest =>
      simp only [updateRootRun]
      rw [ih _ _]
      exact setNodeRootIn_idNamePar db.nodes nid r

/-! ## Lookup transport lemmas -/

theorem find?_id_map_of_idNamePar (l1 l2 : List DNode) (nid : Nat)
    (h : l1.map idNamePar = l2.map idNamePar) :
    (l1.find? (fun n => n.id = nid)).map idNamePar
      = (l2.find? (fun n => n.id = nid)).map idNamePar := by
  induction l1 generalizing l2 with
  | nil =>
    cases l2 with
    | nil => rfl
    | cons b bs => simp at h
  | cons a as ih =>
    cases l2 with
    | nil => simp at h
    | cons b bs =>
      simp only [List.map_cons, List.cons.injEq] at h
      obtain ⟨hab, hts⟩ := h
      have hid : a.id = b.id := congrArg (fun x => x.1) hab
      simp only [List.find?_cons]
      by_cases hi : a.id = nid
      · rw [decide_eq_true hi, decide_eq_true (hid ▸ hi)]
        show Option.map idNamePar (some a) = Option.map idNamePar (some b)
        simp [hab]
      · rw [decide_eq_false hi, decide_eq_false (by rw [← hid]; exact hi)]
        exact ih bs hts

theorem getNode_name_of_idNamePar (db1 db2 : NodeDB) (nid : Nat)
    (h : db1.nodes.map idNamePar = db2.nodes.map idNamePar) :
    (getNode db1 nid).map (fun n => n.name) = (getNode db2 nid).map (fun n => n.name) := by
  have := find?_id_map_of_idNamePar db1.nodes db2.nodes nid h
  unfold getNode
  cases h1 : db1.nodes.find? (fun n => n.id = nid) with
  | none =>
    rw [h1] at this
    cases h2 : db2.nodes.find? (fun n => n.id = nid) with
    | none => rfl
    | some b => rw [h2] at this; simp at this
  | some a =>
    rw [h1] at this
    cases h2 : db2.nodes.find? (fun n => n.id = nid) with
    | none => rw [h2] at this; simp at this
    | some b =>
      rw [h2] at this
      have hab : idNamePar a = idNamePar b := by simpa using this
      have hn : a.name = b.name := congrArg (fun x => x.2.1) hab
      simp [hn]

theorem getNode_parent_of_idNamePar (db1 db2 : NodeDB) (nid : Nat)
    (h : db1.nodes.map idNamePar = db2.nodes.map idNamePar) :
    (getNode db1 nid).map (fun n => n.parentId) = (getNode db2 nid).map (fun n => n.parentId) := by
  have := find?_id_map_of_idNamePar db1.nodes db2.nodes nid h
  unfold getNode
  cases h1 : db1.nodes.find? (fun n => n.id = nid) with
  | none =>
    rw [h1] at this
    cases h2 : db2.nodes.find? (fun n => n.id = nid) with
    | none => rfl
    | some b => rw [h2] at this; simp at this
  | some a =>
    rw [h1] at this
    cases h2 : db2.nodes.find? (fun n => n.id = nid) with
    | none => rw [h2] at this; simp at this
    | some b =>
      rw [h2] at this
      have hab : idNamePar a = idNamePar b := by simpa using this
      have hn : a.parentId = b.parentId := congrArg (fun x => x.2.2) hab
      simp [hn]

theorem find?_setNodeNameIn_name (l : List DNode) (nid : Nat) (v : Ustr)
    (h : (l.find? (fun n => n.id = nid)).isSome) :
    ((setNodeNameIn l nid v).find? (fun n => n.id = nid)).map (fun n => n.name) = some v := by
  induction l with
  | nil => simp [List.find?_nil] at h
  | cons a as ih =>
    by_cases hi : a.id = nid
    · simp only [setNodeNameIn, List.map_cons, if_pos hi]
      rw [List.find?_cons_of_pos _ (by simpa using hi)]
      rfl
    · simp only [setNodeNameIn, List.map_cons, if_neg hi]
      rw [List.find?_cons_of_neg _ (by simpa using hi)]
      simp only [List.find?_cons] at h
      rw [decide_eq_false hi] at h
      exact ih h

theorem find?_filter_keep (l : List α) (p q : α → Bool) (a : α)
    (h : l.find? p = some a) (hq : q a = true) :
    (l.filter q).find? p = some a := by
  induction l with
  | nil => simp at h
  | cons x xs ih =>
    by_cases hx : p x
    · rw [List.find?_cons_of_pos _ hx] at h
      injection h with h
      subst h
      rw [List.filter_cons_of_pos hq]
      exact List.find?_cons_of_pos _ hx
    · rw [List.find?_cons_of_neg _ hx] at h
      by_cases hqx : q x
      · rw [List.filter_cons_of_pos hqx]
        rw [List.find?_cons_of_neg _ hx]
        exact ih h
      · rw [List.filter_cons_of_neg (by simpa using hqx)]
        exact ih h

theorem aliasAt_map_keyPres (l : List NodeAlias) (g : NodeAlias → NodeAlias)
    (hg : ∀ x, (g x).parentId = x.parentId ∧ (g x).name = x.name)
    (q : Option Nat) (m : Ustr) :
    aliasAt (l.map g) q m = (aliasAt l q m).map g := by
  unfold aliasAt
  rw [List.find?_map]
  have hp : ((fun a => decide (a.parentId = q ∧ a.name = m)) ∘ g)
      = (fun a : NodeAlias => decide (a.parentId = q ∧ a.name = m)) := by
    funext x
    simp only [Function.comp_apply, (hg x).1, (hg x).2]
  rw [hp]

theorem aliasKeys_filter_sub (l : List NodeAlias) (f : NodeAlias → Bool) (k : Option Nat × Ustr)
    (h : k ∈ aliasKeys (l.filter f)) : k ∈ aliasKeys l := by
  unfold aliasKeys at h ⊢
  obtain ⟨a, hma, hk⟩ := List.mem_map.mp h
  exact List.mem_map.mpr ⟨a, (List.mem_filter.mp hma).1, hk⟩

theorem aliasKeys_map_keyPres (l : List NodeAlias) (g : NodeAlias → NodeAlias)
    (hg : ∀ x, (g x).parentId = x.parentId ∧ (g x).name = x.name) :
    aliasKeys (l.map g) = aliasKeys l := by
  unfold aliasKeys
  rw [List.map_map]
  apply List.map_congr_left
  intro a _
  simp [(hg a).1, (hg a).2]

/-! ## Consequences for whole mutations -/

theorem updatePath_aliases (db : NodeDB) (nid : Nat) (np : Option Nat) (nn : Option Ustr) :
    ((updatePath db nid np nn).1).aliases = db.aliases :=
  updatePathRun_aliases _ db _

theorem updatePath_idNamePar (db : NodeDB) (nid : Nat) (np : Option Nat) (nn : Option Ustr) :
    ((updatePath db nid np nn).1).nodes.map idNamePar = db.nodes.map idNamePar :=
  updatePathRun_idNamePar _ db _

/-- The alias table a `node.name = value` assignment leaves behind: either
untouched, or exactly the vacated-name upsert the validator performs. -/
theorem setNameState_aliases (db : NodeDB) (nid : Nat) (v : Option Ustr) :
    (setNameState db nid v).aliases = db.aliases ∨
    ∃ node, getNode db nid = some node ∧
      (setNameState db nid v).aliases
        = upsertAliasList db.aliases node.parentId node.name (some nid) := by
  unfold setNameState setName
  cases hg : getNode db nid with
  | none => exact Or.inl rfl
  | some node =>
    cases v with
    | none => exact Or.inl rfl
    | some v0 =>
      by_cases hs : strContains v0 '/'
      · simp only [if_pos hs]
        exact Or.inl trivial
      · simp only [if_neg hs]
        by_cases he : strTrim v0 = []
        · simp only [if_pos he]
          exact Or.inl trivial
        · simp only [if_neg he]
          by_cases hv : strTrim v0 = node.name
          · simp only [if_pos hv, if_neg (by simp [hv] : ¬ strTrim v0 ≠ node.name)]
            exact Or.inl trivial
          · simp only [if_neg hv, if_pos (by simp [hv] : strTrim v0 ≠ node.name)]
            cases hup : updatePath
                { db with aliases := upsertAliasList db.aliases node.parentId node.name (some nid) }
                nid none (some (strTrim v0)) with
            | mk db2 ok =>
              have hal : db2.aliases
                  = upsertAliasList db.aliases node.parentId node.name (some nid) := by
                have := updatePath_aliases
                  { db with aliases := upsertAliasList db.aliases node.parentId node.name (some nid) }
                  nid none (some (strTrim v0))
                rw [hup] at this
                exact this
              cases ok with
              | true => exact Or.inr ⟨node, rfl, hal⟩
              | false => exact Or.inr ⟨node, rfl, hal⟩

theorem setNameState_keys_nodup (db : NodeDB) (nid : Nat) (v : Option Ustr)
    (h : (aliasKeys db.aliases).Nodup) :
    (aliasKeys (setNameState db nid v).aliases).Nodup := by
  rcases setNameState_aliases db nid v with heq | ⟨node, _, heq⟩
  · rw [heq]; exact h
  · rw [heq]; exact upsert_keys_nodup _ _ _ _ h

theorem renameSeq_keys_nodup (db : NodeDB) (ops : List (Nat × Option Ustr))
    (h : (aliasKeys db.aliases).Nodup) :
    (aliasKeys (renameSeq db ops).aliases).Nodup := by
  induction ops generalizing db with
  | nil => exact h
  | cons op rest ih =>
    unfold renameSeq
    rw [List.foldl_cons]
    exact ih _ (setNameState_keys_nodup db op.1 op.2 h)

/-- Successful rename, name actually changing: the validator upserts the
vacated-name alias, the path cascade completes, the name is stored trimmed. -/
theorem setName_ok_shape (db : NodeDB) (nid : Nat) (node : DNode) (v0 : Ustr) (db' : NodeDB)
    (hg : getNode db nid = some node)
    (hv : strTrim v0 ≠ node.name)
    (hok : setName db nid (some v0) = .ok db') :
    ∃ db2, updatePath
        { db with aliases := upsertAliasList db.aliases node.parentId node.name (some nid) }
        nid none (some (strTrim v0)) = (db2, true) ∧
      db' = { db2 with nodes := setNodeNameIn db2.nodes nid (strTrim v0) } ∧
      db'.aliases = upsertAliasList db.aliases node.parentId node.name (some nid) := by
  unfold setName at hok
  rw [hg] at hok
  simp only [] at hok
  by_cases hs : strContains v0 '/'
  · rw [if_pos hs] at hok
    cases hok
  · rw [if_neg hs] at hok
    by_cases he : strTrim v0 = []
    · rw [if_pos he] at hok
      cases hok
    · rw [if_neg he] at hok
      rw [if_pos hv, if_neg (by simpa using hv)] at hok
      cases hup : updatePath
          { db with aliases := upsertAliasList db.aliases node.parentId node.name (some nid) }
          nid none (some (strTrim v0)) with
      | mk db2 ok =>
        rw [hup] at hok
        cases ok with
        | false => cases hok
        | true =>
          have hdb : db' = { db2 with nodes := setNodeNameIn db2.nodes nid (strTrim v0) } := by
            cases hok
            rfl
          refine ⟨db2, rfl, hdb, ?_⟩
          rw [hdb]
          have := updatePath_aliases
            { db with aliases := upsertAliasList db.aliases node.parentId node.name (some nid) }
            nid none (some (strTrim v0))
          rw [hup] at this
          exact this

/-- Rename whose path cascade fails: the raised `ValueError` surfaces as
`pathTooLong` carrying the partial state, which already holds the alias
upsert. -/
theorem setName_error_shape (db : NodeDB) (nid : Nat) (node : DNode) (v0 : Ustr) (db2 : NodeDB)
    (hg : getNode db nid = some node)
    (hs : strContains v0 '/' = false)
    (he : strTrim v0 ≠ [])
    (hv : strTrim v0 ≠ node.name)
    (hfail : updatePath
        { db with aliases := upsertAliasList db.aliases node.parentId node.name (some nid) }
        nid none (some (strTrim v0)) = (db2, false)) :
    setName db nid (some v0) = .error (.pathTooLong, db2) := by
  unfold setName
  rw [hg]
  simp only []
  rw [if_neg (by simp [hs]), if_neg he, if_pos hv, if_neg (by simpa using hv), hfail]

/-- Reparent whose path cascade fails: the raised `ValueError` surfaces as
`pathTooLong` carrying the partial state (root updates included). -/
theorem setParent_error_shape (db : NodeDB) (nid pid : Nat) (node p : DNode) (db2 : NodeDB)
    (hg : getNode db nid = some node)
    (hp : getNode db pid = some p)
    (hne : some pid ≠ node.parentId)
    (hfail : updatePath (if node.rootId ≠ p.rootId then updateRoot db nid p.rootId else db)
        nid (some pid) none = (db2, false)) :
    setParent db nid (some pid) = .error (.pathTooLong, db2) := by
  unfold setParent
  rw [hg]
  simp only []
  rw [if_neg hne, hp]
  simp only []
  rw [hfail]

/-! ## Claim C7 — `getprop` nearest-ancestor inheritance -/

theorem getprop_chain_find {α : Type} [Inhabited α] (n : PNode α) (k : Ustr) (d : α) :
    getprop n k d =
      match (chain n).find? (fun m => hasKey m.props k) with
      | some m => propVal m.props k
      | none => d := by
  induction n with
  | root ps =>
    by_cases h : hasKey ps k <;>
      simp [getprop, chain, List.find?_cons, PNode.props, h]
  | child ps p ih =>
    by_cases h : hasKey ps k <;>
      simp [getprop, chain, List.find?_cons, PNode.props, h, ih]

/-- C7: `getprop(k, d)` walks from the node up the parent chain (ending at
the root, which has no parent) and returns the property value of the first
node on that chain whose properties contain `k`, else `d`; hence a property
set only on an ancestor is visible on every descendant, and a property held
nowhere on the chain (e.g. only in a sibling subtree) leaves the default. -/
theorem C7_getprop_inheritance {α : Type} [Inhabited α] (n : PNode α) (k : Ustr) (d : α) :
    (getprop n k d =
      match (chain n).find? (fun m => hasKey m.props k) with
      | some m => propVal m.props k
      | none => d) ∧
    ((∀ m ∈ chain n, ¬ hasKey m.props k) → getprop n k d = d) ∧
    (∀ a ∈ chain n, hasKey a.props k →
      (∀ m ∈ chain n, hasKey m.props k → m = a) → getprop n k d = propVal a.props k) := by
  refine ⟨getprop_chain_find n k d, ?_, ?_⟩
  · intro h
    rw [getprop_chain_find n k d]
    have : (chain n).find? (fun m => hasKey m.props k) = none := by
      rw [List.find?_eq_none]
      intro m hm
      simpa using h m hm
    rw [this]
  · intro a ha hk huniq
    rw [getprop_chain_find n k d]
    have hex : ((chain n).find? (fun m => hasKey m.props k)).isSome := by
      rw [List.find?_isSome]
      exact ⟨a, ha, hk⟩
    cases hf : (chain n).find? (fun m => hasKey m.props k) with
    | none => rw [hf] at hex; simp at hex
    | some m =>
      have hm := List.mem_of_find?_eq_some hf
      have hmk := List.find?_some hf
      have : m = a := huniq m hm hmk
      rw [this]

/-- Witness for C7: a two-level chain; the key set only on the root is
visible from the child and the first-hit value is returned. -/
theorem C7_witness :
    getprop (PNode.child ([] : List (Ustr × Ustr)) (PNode.root [(us "color", us "blue")]))
        (us "color") (us "dflt") = us "blue" :=
  (C7_getprop_inheritance
      (PNode.child ([] : List (Ustr × Ustr)) (PNode.root [(us "color", us "blue")]))
      (us "color") (us "dflt")).2.2
    (PNode.root [(us "color", us "blue")]) (by simp [chain])
    (by decide)
    (by
      intro m hm hk
      simp only [chain, List.mem_cons, List.mem_singleton] at hm
      rcases hm with rfl | rfl | h
      · exact absurd hk (by decide)
      · rfl
      · simp at h)

/-! ## Sample store (mirrors the fixture of the repository's test suite) -/

def fxRoot : DNode := ⟨0, us "root", none, 0, us "/", us "node", none⟩
def fxNode1 : DNode := ⟨1, us "node1", some 0, 0, us "/node1", us "node", none⟩
def fxNode2 : DNode := ⟨2, us "node2", some 0, 0, us "/node2", us "node", none⟩
def fxNode3 : DNode := ⟨3, us "node3", some 2, 0, us "/node2/node3", us "node", none⟩
def fxNode4 : DNode := ⟨4, us "node4", some 3, 0, us "/node2/node3/node4", us "node", none⟩
def fxDb : NodeDB := ⟨[fxRoot, fxNode1, fxNode2, fxNode3, fxNode4], []⟩
def fxRootPub : NodePublisher := ⟨0, us "/", us "/"⟩

/-! ## Claim C10 — `getnode` returns the alias target, not the child -/

/-- A store in which the child named `node1` is itself the alias target at
`(root, node1)` — reached by renaming the child away and back again. -/
def fxRenamedBackDb : NodeDB :=
  ⟨[fxRoot, fxNode1], [⟨some 0, us "node1", some 1⟩, ⟨some 0, us "x", some 1⟩]⟩

/-- C10 counterexample: after renaming `node1` away and back, `getnode`
returns the child node itself (it is the alias target), refuting "it never
returns the child node itself".  The state is reachable by two renames from
an alias-free store. -/
theorem C10_counterexample :
    renameSeq ⟨[fxRoot, fxNode1], []⟩ [(1, some (us "x")), (1, some (us "node1"))]
        = fxRenamedBackDb ∧
    nodesGet fxRenamedBackDb 0 (us "node1") = some fxNode1 ∧
    getnode fxRenamedBackDb 0 (us "node1") none = some fxNode1 := by
  refine ⟨?_, by decide, by decide⟩
  decide

/-- C10 (amended): `getnode(name, default)` returns the alias target exactly
when a child of that name exists and an alias of that name with a non-null
node reference exists; in every other case — including a child with no
alias — it returns the default.  The value returned in the alias case is the
alias target, which may coincide with the child itself. -/
theorem C10_getnode_amended (db : NodeDB) (nid : Nat) (nm : Ustr) (dflt : Option DNode) :
    (nodesGet db nid nm = none → getnode db nid nm dflt = dflt) ∧
    ((nodesGet db nid nm).isSome → aliasAt db.aliases (some nid) nm = none →
        getnode db nid nm dflt = dflt) ∧
    (∀ a, (nodesGet db nid nm).isSome → aliasAt db.aliases (some nid) nm = some a →
        aliasNodeIn db a = none → getnode db nid nm dflt = dflt) ∧
    (∀ a t, (nodesGet db nid nm).isSome → aliasAt db.aliases (some nid) nm = some a →
        aliasNodeIn db a = some t → getnode db nid nm dflt = some t) := by
  refine ⟨?_, ?_, ?_, ?_⟩
  · intro h
    unfold getnode
    rw [h]
  · intro h ha
    cases hx : nodesGet db nid nm with
    | none => rw [hx] at h; simp at h
    | some c =>
      unfold getnode
      rw [hx, ha]
  · intro a h ha han
    cases hx : nodesGet db nid nm with
    | none => rw [hx] at h; simp at h
    | some c => simp only [getnode, hx, ha, han]
  · intro a t h ha hat
    cases hx : nodesGet db nid nm with
    | none => rw [hx] at h; simp at h
    | some c => simp only [getnode, hx, ha, hat]

/-- Witness for C10: in the plain fixture, `node1` exists as a child but has
no alias, so `getnode` ignores the child and returns the provided default. -/
theorem C10_witness :
    getnode fxDb 0 (us "node1") (some fxNode2) = some fxNode2 :=
  (C10_getnode_amended fxDb 0 (us "node1") (some fxNode2)).2.1 (by decide) (by decide)

/-! ## Claim C9 — `publish` branch mapping and the error taxonomy -/

/-- C9: `publish` maps REDIRECT to a 302 redirect carrying the corrected
URL, NOROOT to `RootNotFound`, GONE to `NodeGone`, MATCH to dispatching `/`
and PARTIAL to dispatching the residual fragment, both against the matched
node's effective type; and the three failure classes are pairwise
distinct. -/
theorem C9_publish_branches (db : NodeDB) (pub : NodePublisher) (path : Ustr) :
    (∀ n f, NodePublisher.traverse db pub path true = (.redirect, n, some f) →
        publish db pub path = .redirected 302 f) ∧
    (∀ n f, NodePublisher.traverse db pub path true = (.noroot, n, f) →
        publish db pub path = .raised .rootNotFound) ∧
    (∀ n f, NodePublisher.traverse db pub path true = (.gone, n, f) →
        publish db pub path = .raised .nodeGone) ∧
    (∀ n f, NodePublisher.traverse db pub path true = (.exactMatch, some n, f) →
        publish db pub path = .dispatched (etype n) (us "/")) ∧
    (∀ n f, NodePublisher.traverse db pub path true = (.subMatch, some n, some f) →
        publish db pub path = .dispatched (etype n) f) ∧
    (NodErr.rootNotFound ≠ NodErr.nodeGone ∧ NodErr.nodeGone ≠ NodErr.viewNotFound ∧
        NodErr.rootNotFound ≠ NodErr.viewNotFound) := by
  refine ⟨?_, ?_, ?_, ?_, ?_, by decide, by decide, by decide⟩ <;>
    intro n f h <;> unfold publish <;> rw [h] <;> rfl

/-- Witness for C9: concrete instances of the NOROOT, MATCH and GONE
branches on the sample store. -/
theorem C9_witness :
    publish ⟨[], []⟩ fxRootPub (us "/node2") = .raised .rootNotFound ∧
    publish fxDb fxRootPub (us "/node2") = .dispatched (etype fxNode2) (us "/") ∧
    publish (deleteNode fxDb 3) fxRootPub (us "/node2/node3") = .raised .nodeGone := by
  refine ⟨?_, ?_, ?_⟩
  · exact (C9_publish_branches ⟨[], []⟩ fxRootPub (us "/node2")).2.1 none none (by decide)
  · exact (C9_publish_branches fxDb fxRootPub (us "/node2")).2.2.2.1 fxNode2 none (by decide)
  · exact (C9_publish_branches (deleteNode fxDb 3) fxRootPub (us "/node2/node3")).2.2.1
      (some fxNode2) (some (us "/node3")) (by decide)

/-! ## Claim C8 — name validation -/

/-- C8: setting a node's name rejects a null value, a value containing `/`,
and a value empty after trimming, each with an invalid-name error carrying
the unchanged store; a valid value is stored with surrounding whitespace
trimmed. -/
theorem C8_name_validation (db : NodeDB) (nid : Nat) (node : DNode) (v0 : Ustr)
    (hg : getNode db nid = some node) :
    (setName db nid none = .error (.invalidName, db)) ∧
    (strContains v0 '/' = true → setName db nid (some v0) = .error (.invalidName, db)) ∧
    (strTrim v0 = [] → setName db nid (some v0) = .error (.invalidName, db)) ∧
    (∀ db', setName db nid (some v0) = .ok db' →
        (getNode db' nid).map (fun n => n.name) = some (strTrim v0)) := by
  refine ⟨?_, ?_, ?_, ?_⟩
  · unfold setName
    rw [hg]
  · intro h
    unfold setName
    rw [hg]
    simp only []
    rw [if_pos h]
  · intro h
    unfold setName
    rw [hg]
    simp only []
    by_cases hs : strContains v0 '/'
    · rw [if_pos hs]
    · rw [if_neg hs, if_pos h]
  · intro db' hok
    by_cases hv : strTrim v0 = node.name
    · -- name unchanged: the assignment is a no-op and the stored name is
      -- already the trimmed value
      unfold setName at hok
      rw [hg] at hok
      simp only [] at hok
      by_cases hs : strContains v0 '/'
      · rw [if_pos hs] at hok
        cases hok
      · rw [if_neg hs] at hok
        by_cases he : strTrim v0 = []
        · rw [if_pos he] at hok
          cases hok
        · rw [if_neg he] at hok
          rw [if_pos hv, if_neg (by simp [hv] : ¬ strTrim v0 ≠ node.name)] at hok
          cases hok
          rw [hg]
          simp [hv]
    · obtain ⟨db2, hup, hdb, _⟩ := setName_ok_shape db nid node v0 db' hg hv hok
      have hskel : db2.nodes.map idNamePar = db.nodes.map idNamePar := by
        have := updatePath_idNamePar
          { db with aliases := upsertAliasList db.aliases node.parentId node.name (some nid) }
          nid none (some (strTrim v0))
        rw [hup] at this
        exact this
      have hmap := getNode_name_of_idNamePar db2 db nid hskel
      rw [hg] at hmap
      have hsome : (db2.nodes.find? (fun n => n.id = nid)).isSome := by
        cases hx : getNode db2 nid with
        | none => rw [hx] at hmap; simp at hmap
        | some a => exact (Option.isSome_iff_exists.mpr ⟨a, hx⟩)
      rw [hdb]
      unfold getNode
      exact find?_setNodeNameIn_name db2.nodes nid (strTrim v0) hsome

/-- Witness for C8 on the sample store: null, slash-bearing and
whitespace-only names are rejected with the store unchanged, and
`'  node1x  '` is stored trimmed. -/
theorem C8_witness :
    (setName fxDb 1 none = .error (.invalidName, fxDb)) ∧
    (setName fxDb 1 (some (us "a/b")) = .error (.invalidName, fxDb)) ∧
    (setName fxDb 1 (some (us "   ")) = .error (.invalidName, fxDb)) ∧
    ((match setName fxDb 1 (some (us "  node1x  ")) with
      | .ok d => (getNode d 1).map (fun n => n.name)
      | .error _ => none) = some (us "node1x")) := by
  have h := C8_name_validation fxDb 1 fxNode1 (us "  node1x  ") (by decide)
  refine ⟨h.1, ?_, ?_, ?_⟩
  · exact (C8_name_validation fxDb 1 fxNode1 (us "a/b") (by decide)).2.1 (by decide)
  · exact (C8_name_validation fxDb 1 fxNode1 (us "   ") (by decide)).2.2.1 (by decide)
  · cases hok : setName fxDb 1 (some (us "  node1x  ")) with
    | ok d =>
      have := h.2.2.2 d hok
      simpa using this
    | error e =>
      exfalso
      have hne : (setName fxDb 1 (some (us "  node1x  "))).toOption.isSome = true := by decide
      rw [hok] at hne
      simp [Except.toOption] at hne

/-! ## Claim C3 — alias creation and repointing on rename -/

/-- C3: renaming a node (whose previous name is non-null — every stored node
here) to a valid different name creates the alias `(parent, old_name) →
node` when no alias existed there, and otherwise repoints the existing row
in place; consequently any sequence of renames keeps the alias keys
duplicate-free — exactly one row per distinct vacated `(parent, name)`. -/
theorem C3_rename_alias (db : NodeDB) (nid : Nat) (node : DNode) (v0 : Ustr) (db' : NodeDB)
    (hg : getNode db nid = some node)
    (hv : strTrim v0 ≠ node.name)
    (hok : setName db nid (some v0) = .ok db') :
    (aliasAt db'.aliases node.parentId node.name
        = some ⟨node.parentId, node.name, some nid⟩) ∧
    (aliasAt db.aliases node.parentId node.name = none →
        db'.aliases = db.aliases ++ [⟨node.parentId, node.name, some nid⟩]) ∧
    ((aliasAt db.aliases node.parentId node.name).isSome →
        db'.aliases = repointFirst db.aliases node.parentId node.name (some nid) ∧
        aliasKeys db'.aliases = aliasKeys db.aliases) ∧
    ((aliasKeys db.aliases).Nodup →
        ∀ ops : List (Nat × Option Ustr), (aliasKeys (renameSeq db ops).aliases).Nodup) := by
  obtain ⟨db2, hup, hdb, hal⟩ := setName_ok_shape db nid node v0 db' hg hv hok
  refine ⟨?_, ?_, ?_, ?_⟩
  · rw [hal]
    exact aliasAt_upsert_self db.aliases node.parentId node.name (some nid)
  · intro hnone
    rw [hal]
    exact upsert_eq_append_of_none db.aliases node.parentId node.name (some nid) hnone
  · intro hsome
    constructor
    · rw [hal]
      unfold upsertAliasList
      rw [if_pos hsome]
    · rw [hal]
      exact upsert_keys_of_isSome db.aliases node.parentId node.name (some nid) hsome
  · intro hnd ops
    exact renameSeq_keys_nodup db ops hnd

/-- Witness for C3: renaming `node1` to `nodeX` in the alias-free sample
store creates the alias `(root, node1) → node1`. -/
theorem C3_witness :
    aliasAt (setNameState fxDb 1 (some (us "nodeX"))).aliases (some 0) (us "node1")
      = some ⟨some 0, us "node1", some 1⟩ := by
  have hok : setName fxDb 1 (some (us "nodeX"))
      = .ok (setNameState fxDb 1 (some (us "nodeX"))) := rfl
  exact (C3_rename_alias fxDb 1 fxNode1 (us "nodeX") _ (by decide) (by decide) hok).1

/-! ## Claim C6 — what happens to an alias when its name is re-occupied -/

/-- A store where node 1 was renamed away from `a` (leaving the alias
`(root, a) → 1`) and node 2, named `b`, is about to take over `a`. -/
def c6A : DNode := ⟨1, us "x", some 0, 0, us "/x", us "node", none⟩
def c6B : DNode := ⟨2, us "b", some 0, 0, us "/b", us "node", none⟩
def c6Db : NodeDB := ⟨[fxRoot, c6A, c6B], [⟨some 0, us "a", some 1⟩]⟩

/-- C6 counterexample: node 2 successfully takes over the vacated name `a`,
yet the alias at `(root, a)` still points to the former occupant node 1, not
to the new occupant node 2 — refuting the claim that the alias is updated to
the new occupant at takeover. -/
theorem C6_counterexample :
    (getNode (setNameState c6Db 2 (some (us "a"))) 2).map (fun n => n.name)
        = some (us "a") ∧
    (setName c6Db 2 (some (us "a"))).toOption.isSome = true ∧
    aliasAt (setNameState c6Db 2 (some (us "a"))).aliases (some 0) (us "a")
        = some ⟨some 0, us "a", some 1⟩ ∧
    (⟨some 0, us "a", some 1⟩ : NodeAlias) ≠ ⟨some 0, us "a", some 2⟩ := by
  decide

/-- C6 (amended): when a node takes over a vacated name, the alias row at
`(parent, name)` is left untouched, still pointing at the former occupant;
the row comes to point at the new occupant only when that occupant later
vacates the name by renaming away, and then the existing row is updated in
place (same key set, no duplicate row). -/
theorem C6_alias_on_takeover (db : NodeDB) (nid : Nat) (node : DNode) (v0 : Ustr) (db' : NodeDB)
    (hg : getNode db nid = some node)
    (hv : strTrim v0 ≠ node.name)
    (hok : setName db nid (some v0) = .ok db') :
    (aliasAt db'.aliases node.parentId (strTrim v0)
        = aliasAt db.aliases node.parentId (strTrim v0)) ∧
    (aliasAt db'.aliases node.parentId node.name
        = some ⟨node.parentId, node.name, some nid⟩) ∧
    ((aliasAt db.aliases node.parentId node.name).isSome →
        aliasKeys db'.aliases = aliasKeys db.aliases) := by
  obtain ⟨db2, hup, hdb, hal⟩ := setName_ok_shape db nid node v0 db' hg hv hok
  refine ⟨?_, ?_, ?_⟩
  · rw [hal]
    exact aliasAt_upsert_other db.aliases node.parentId node.parentId node.name (strTrim v0)
      (some nid) (by simp [hv])
  · rw [hal]
    exact aliasAt_upsert_self db.aliases node.parentId node.name (some nid)
  · intro hsome
    rw [hal]
    exact upsert_keys_of_isSome db.aliases node.parentId node.name (some nid) hsome

/-- Witness for C6: in the takeover scenario the alias at `(root, a)` is the
same row before and after node 2 takes the name `a`. -/
theorem C6_witness :
    aliasAt (setNameState c6Db 2 (some (us "a"))).aliases (some 0) (us "a")
      = aliasAt c6Db.aliases (some 0) (us "a") := by
  have hok : setName c6Db 2 (some (us "a"))
      = .ok (setNameState c6Db 2 (some (us "a"))) := rfl
  exact (C6_alias_on_takeover c6Db 2 c6B (us "a") _ (by decide) (by decide) hok).1

/-! ## Claim C4 — deletion produces exactly one gone-marker alias -/

/-- The explicit result of `deleteNode` on an existing node (the let-bound
body of the definition, spelled out). -/
theorem deleteNode_eq (db : NodeDB) (nid : Nat) (obj : DNode)
    (hg : getNode db nid = some obj) :
    deleteNode db nid =
      { nodes := db.nodes.filter (fun n => ¬ n.id ∈ subtreeIds db nid),
        aliases :=
          ((if obj.parentId ≠ none then
              upsertAliasList db.aliases obj.parentId obj.name none
            else db.aliases).filter
            (fun a => match a.parentId with
              | some p => ¬ p ∈ subtreeIds db nid
              | none => true)).map
          (fun a => match a.nodeId with
            | some t => if t ∈ subtreeIds db nid then { a with nodeId := none } else a
            | none => a) } := by
  unfold deleteNode
  rw [hg]

/-- The `SET NULL` rewrite preserves alias keys. -/
theorem setNullMap_keyPres (db : NodeDB) (nid : Nat) :
    ∀ x : NodeAlias,
      ((fun a : NodeAlias => match a.nodeId with
        | some t => if t ∈ subtreeIds db nid then { a with nodeId := none } else a
        | none => a) x).parentId = x.parentId ∧
      ((fun a : NodeAlias => match a.nodeId with
        | some t => if t ∈ subtreeIds db nid then { a with nodeId := none } else a
        | none => a) x).name = x.name := by
  intro x
  cases hx : x.nodeId with
  | none => simp [hx]
  | some t => by_cases ht : t ∈ subtreeIds db nid <;> simp [hx, ht]

/-- C4: deleting a node with a non-null parent creates (or updates in place)
exactly one gone-marker alias, at the node's own `(parent, name)` slot; no
alias key appears for any descendant removed by the cascade; deleting a root
node creates no alias at all. -/
theorem C4_delete_alias (db : NodeDB) (nid : Nat) (obj : DNode)
    (hg : getNode db nid = some obj) :
    (∀ p, obj.parentId = some p → p ∉ subtreeIds db nid →
        aliasAt (deleteNode db nid).aliases (some p) obj.name
          = some ⟨some p, obj.name, none⟩) ∧
    (∀ q m, (q, m) ≠ (obj.parentId, obj.name) →
        (q, m) ∈ aliasKeys (deleteNode db nid).aliases →
        (q, m) ∈ aliasKeys db.aliases) ∧
    (obj.parentId = none →
        ∀ q m, (q, m) ∈ aliasKeys (deleteNode db nid).aliases →
          (q, m) ∈ aliasKeys db.aliases) := by
  rw [deleteNode_eq db nid obj hg]
  refine ⟨?_, ?_, ?_⟩
  · intro p hp hnp
    rw [aliasAt_map_keyPres _ _ (setNullMap_keyPres db nid)]
    have h1 : aliasAt (if obj.parentId ≠ none then
          upsertAliasList db.aliases obj.parentId obj.name none
        else db.aliases) (some p) obj.name = some ⟨some p, obj.name, none⟩ := by
      rw [if_pos (by simp [hp])]
      rw [hp]
      exact aliasAt_upsert_self db.aliases (some p) obj.name none
    unfold aliasAt at h1 ⊢
    have h2 := find?_filter_keep _ _
      (fun a : NodeAlias => match a.parentId with
        | some q => decide (¬ q ∈ subtreeIds db nid)
        | none => true)
      (⟨some p, obj.name, none⟩ : NodeAlias) h1 (by simp [hnp])
    rw [h2]
    rfl
  · intro q m hne hmem
    rw [aliasKeys_map_keyPres _ _ (setNullMap_keyPres db nid)] at hmem
    have hmem2 := aliasKeys_filter_sub _ _ _ hmem
    by_cases hp : obj.parentId ≠ none
    · rw [if_pos hp] at hmem2
      rcases aliasKeys_upsert_mem db.aliases obj.parentId obj.name none q m hmem2 with h | h
      · exact h
      · exact absurd h hne
    · rw [if_neg hp] at hmem2
      exact hmem2
  · intro hp q m hmem
    rw [aliasKeys_map_keyPres _ _ (setNullMap_keyPres db nid)] at hmem
    have hmem2 := aliasKeys_filter_sub _ _ _ hmem
    rw [if_neg (by simp [hp])] at hmem2
    exact hmem2

/-- Witness for C4: deleting `node3` (which has child `node4`) leaves exactly
the gone-marker alias at `(node2, node3)`, and no alias for the cascaded
`node4`. -/
theorem C4_witness :
    aliasAt (deleteNode fxDb 3).aliases (some 2) (us "node3")
        = some ⟨some 2, us "node3", none⟩ ∧
    ((some 3, us "node4") ∈ aliasKeys (deleteNode fxDb 3).aliases →
        (some 3, us "node4") ∈ aliasKeys fxDb.aliases) := by
  constructor
  · exact (C4_delete_alias fxDb 3 fxNode3 (by decide)).1 2 (by decide) (by decide)
  · exact (C4_delete_alias fxDb 3 fxNode3 (by decide)).2.1 (some 3) (us "node4") (by decide)

/-! ## Claim C5 — the path length guard is not atomic at the session layer -/

def c5Child : DNode := ⟨1, us "a", some 0, 0, us "/a", us "node", none⟩
def c5Db : NodeDB := ⟨[fxRoot, c5Child], []⟩
def c5Long : Ustr := List.replicate 1001 'a'
def c5ErrDb : NodeDB := ⟨[fxRoot, c5Child], [⟨some 0, us "a", some 1⟩]⟩

/-- C5 counterexample: renaming the child of the root to a 1001-character
name fails with the length-violation error, but the state the failure leaves
behind already contains the vacated-name alias — the attempt did not leave
the store exactly as before, refuting the "no alias is created or repointed"
part. -/
theorem C5_counterexample :
    setName c5Db 1 (some c5Long) = .error (.pathTooLong, c5ErrDb) ∧
    c5Db.aliases = [] ∧
    c5ErrDb.aliases = [⟨some 0, us "a", some 1⟩] :=
  ⟨rfl, rfl, rfl⟩

/-- C5 (amended): a rename or reparent whose path recomputation would exceed
1000 characters fails with the length-violation error before the name or
parent link is assigned — no node's id, name or parent changes — but the
mutation is not fully undone at the session layer: the failed rename has
already created or repointed the vacated-name alias, and the error carries
the state with whatever path (and root) updates were applied before the
failure point (full rollback is left to the enclosing transaction). -/
theorem C5_pathTooLong_effects (db : NodeDB) (nid : Nat) (node : DNode)
    (hg : getNode db nid = some node) :
    (∀ v0 db2, strContains v0 '/' = false → strTrim v0 ≠ [] → strTrim v0 ≠ node.name →
      updatePath
          { db with aliases := upsertAliasList db.aliases node.parentId node.name (some nid) }
          nid none (some (strTrim v0)) = (db2, false) →
      setName db nid (some v0) = .error (.pathTooLong, db2) ∧
      db2.nodes.map idNamePar = db.nodes.map idNamePar ∧
      aliasAt db2.aliases node.parentId node.name
        = some ⟨node.parentId, node.name, some nid⟩) ∧
    (∀ pid p db2, getNode db pid = some p → some pid ≠ node.parentId →
      updatePath (if node.rootId ≠ p.rootId then updateRoot db nid p.rootId else db)
          nid (some pid) none = (db2, false) →
      setParent db nid (some pid) = .error (.pathTooLong, db2) ∧
      db2.nodes.map idNamePar = db.nodes.map idNamePar ∧
      db2.aliases = db.aliases) := by
  constructor
  · intro v0 db2 hs he hv hfail
    refine ⟨setName_error_shape db nid node v0 db2 hg hs he hv hfail, ?_, ?_⟩
    · have := updatePath_idNamePar
        { db with aliases := upsertAliasList db.aliases node.parentId node.name (some nid) }
        nid none (some (strTrim v0))
      rw [hfail] at this
      exact this
    · have := updatePath_aliases
        { db with aliases := upsertAliasList db.aliases node.parentId node.name (some nid) }
        nid none (some (strTrim v0))
      rw [hfail] at this
      rw [this]
      exact aliasAt_upsert_self db.aliases node.parentId node.name (some nid)
  · intro pid p db2 hp hne hfail
    refine ⟨setParent_error_shape db nid pid node p db2 hg hp hne hfail, ?_, ?_⟩
    · have h1 := updatePath_idNamePar
        (if node.rootId ≠ p.rootId then updateRoot db nid p.rootId else db) nid (some pid) none
      rw [hfail] at h1
      by_cases hr : node.rootId ≠ p.rootId
      · rw [if_pos hr] at h1
        rw [h1]
        exact updateRootRun_idNamePar _ db _ _
      · rw [if_neg hr] at h1
        exact h1
    · have h1 := updatePath_aliases
        (if node.rootId ≠ p.rootId then updateRoot db nid p.rootId else db) nid (some pid) none
      rw [hfail] at h1
      by_cases hr : node.rootId ≠ p.rootId
      · rw [if_pos hr] at h1
        rw [h1]
        exact updateRootRun_aliases _ db _ _
      · rw [if_neg hr] at h1
        exact h1

def c5P : DNode := ⟨2, us "p", some 0, 0, '/' :: List.replicate 998 'p', us "node", none⟩
def c5C : DNode := ⟨3, List.replicate 200 'c', some 0, 0, '/' :: List.replicate 200 'c',
  us "node", none⟩
def c5Db2 : NodeDB := ⟨[fxRoot, c5P, c5C], []⟩

/-- Witness for C5 (amended): the failing rename carries the alias it already
created; the failing reparent (child of 200-character name moved under a
999-character path) errors with the store's aliases untouched. -/
theorem C5_witness :
    (setName c5Db 1 (some c5Long) = .error (.pathTooLong, c5ErrDb) ∧
      aliasAt c5ErrDb.aliases (some 0) (us "a") = some ⟨some 0, us "a", some 1⟩) ∧
    (setParent c5Db2 3 (some 2) = .error (.pathTooLong, c5Db2) ∧
      c5Db2.aliases = c5Db2.aliases) := by
  constructor
  · have h := (C5_pathTooLong_effects c5Db 1 c5Child rfl).1 c5Long c5ErrDb
      rfl (by decide) (by decide) rfl
    exact ⟨h.1, h.2.2⟩
  · have h := (C5_pathTooLong_effects c5Db2 3 c5C rfl).2 2 c5P c5Db2
      rfl (by decide) rfl
    exact ⟨h.1, h.2.2 ▸ rfl⟩

/-! ## Claim C1 — traversal classification against the fetched chain -/

theorem traverseRel_nil (db : NodeDB) (pub : NodePublisher) (rel : Ustr) (redirect : Bool)
    (h : fetchNodes db pub.rootId (makePathTree pub.basepath rel).2 = []) :
    traverseRel db pub rel redirect = (.noroot, none, none) := by
  unfold traverseRel
  rw [h]
  rfl

theorem traverseRel_last (db : NodeDB) (pub : NodePublisher) (rel : Ustr) (redirect : Bool)
    (last : DNode)
    (h : (fetchNodes db pub.rootId (makePathTree pub.basepath rel).2).getLast? = some last) :
    traverseRel db pub rel redirect =
      if last.path = (makePathTree pub.basepath rel).1 then (.exactMatch, some last, none)
      else if last.path.length < pub.basepath.length then (.noroot, none, none)
      else traverseTail db pub last (makePathTree pub.basepath rel).1 redirect := by
  unfold traverseRel
  rw [h]

theorem traverse_toRel (db : NodeDB) (pub : NodePublisher) (path : Ustr) (redirect : Bool)
    (hpre : strStartsWith (normSlash path) pub.urlpath = true) :
    NodePublisher.traverse db pub path redirect
      = traverseRel db pub ((normSlash path).drop pub.urlpath.length) redirect := by
  unfold NodePublisher.traverse
  rw [if_pos hpre]

/-- C1: once the request path carries the configured `urlpath`, traversal is
classified against the ordered ancestor chain fetched for the decomposed
path: an empty result set is NOROOT (the root row is missing); a longest
fetched node whose path equals the full target path exactly is a MATCH with
that node and a null residual; otherwise a longest match shorter than
`basepath` is again NOROOT (the configured root is missing). -/
theorem C1_traverse_classification (db : NodeDB) (pub : NodePublisher) (path : Ustr)
    (redirect : Bool)
    (hpre : strStartsWith (normSlash path) pub.urlpath = true) :
    (fetchNodes db pub.rootId
        (makePathTree pub.basepath ((normSlash path).drop pub.urlpath.length)).2 = [] →
      NodePublisher.traverse db pub path redirect = (.noroot, none, none)) ∧
    (∀ last, (fetchNodes db pub.rootId
        (makePathTree pub.basepath ((normSlash path).drop pub.urlpath.length)).2).getLast?
          = some last →
      last.path = (makePathTree pub.basepath ((normSlash path).drop pub.urlpath.length)).1 →
      NodePublisher.traverse db pub path redirect = (.exactMatch, some last, none)) ∧
    (∀ last, (fetchNodes db pub.rootId
        (makePathTree pub.basepath ((normSlash path).drop pub.urlpath.length)).2).getLast?
          = some last →
      last.path ≠ (makePathTree pub.basepath ((normSlash path).drop pub.urlpath.length)).1 →
      last.path.length < pub.basepath.length →
      NodePublisher.traverse db pub path redirect = (.noroot, none, none)) := by
  refine ⟨?_, ?_, ?_⟩
  · intro h0
    rw [traverse_toRel db pub path redirect hpre]
    exact traverseRel_nil db pub _ redirect h0
  · intro last hlast hpath
    rw [traverse_toRel db pub path redirect hpre,
      traverseRel_last db pub _ redirect last hlast, if_pos hpath]
  · intro last hlast hpath hlen
    rw [traverse_toRel db pub path redirect hpre,
      traverseRel_last db pub _ redirect last hlast, if_neg hpath, if_pos hlen]

/-- Witness for C1: the three classifications on concrete stores — an empty
store is NOROOT, `/node2` on the sample store is an exact MATCH, and a store
holding only `/` under a publisher rooted at `/node2` is NOROOT because the
longest match is shorter than the basepath. -/
theorem C1_witness :
    NodePublisher.traverse ⟨[], []⟩ fxRootPub (us "/x") true = (.noroot, none, none) ∧
    NodePublisher.traverse fxDb fxRootPub (us "/node2") true
      = (.exactMatch, some fxNode2, none) ∧
    NodePublisher.traverse ⟨[fxRoot], []⟩ ⟨0, us "/node2", us "/"⟩ (us "/node3") true
      = (.noroot, none, none) := by
  refine ⟨?_, ?_, ?_⟩
  · exact (C1_traverse_classification ⟨[], []⟩ fxRootPub (us "/x") true (by decide)).1
      (by decide)
  · exact (C1_traverse_classification fxDb fxRootPub (us "/node2") true (by decide)).2.1
      fxNode2 (by decide) (by decide)
  · exact (C1_traverse_classification ⟨[fxRoot], []⟩ ⟨0, us "/node2", us "/"⟩ (us "/node3")
      true (by decide)).2.2 fxRoot (by decide) (by decide) (by decide)

/-! ## Claim C2 — alias resolution on a partial match -/

/-- C2: in a partially matched traversal (nonempty chain, longest match not
the target, not shorter than `basepath`), with redirects enabled: no alias
for the first unmatched segment under the last matched node gives PARTIAL;
an alias with a null node reference gives GONE; an alias with a live node
gives REDIRECT whose target substitutes the alias target's current name for
the stale segment and translates the result from `basepath` to `urlpath`
coordinates (`redirectTarget`); with redirects disabled, every such case is
PARTIAL. -/
theorem C2_traverse_alias_cases (db : NodeDB) (pub : NodePublisher) (path : Ustr) (last : DNode)
    (hpre : strStartsWith (normSlash path) pub.urlpath = true)
    (hlast : (fetchNodes db pub.rootId
        (makePathTree pub.basepath ((normSlash path).drop pub.urlpath.length)).2).getLast?
          = some last)
    (hne : last.path ≠ (makePathTree pub.basepath ((normSlash path).drop pub.urlpath.length)).1)
    (hlen : ¬ last.path.length < pub.basepath.length) :
    (aliasAt db.aliases (some last.id)
        (splitFirstSeg (fragOf last
          (makePathTree pub.basepath ((normSlash path).drop pub.urlpath.length)).1)).1 = none →
      NodePublisher.traverse db pub path true = (.subMatch, some last,
        some (us "/" ++ fragOf last
          (makePathTree pub.basepath ((normSlash path).drop pub.urlpath.length)).1))) ∧
    (∀ al, aliasAt db.aliases (some last.id)
        (splitFirstSeg (fragOf last
          (makePathTree pub.basepath ((normSlash path).drop pub.urlpath.length)).1)).1 = some al →
      aliasNodeIn db al = none →
      NodePublisher.traverse db pub path true = (.gone, some last,
        some (us "/" ++ fragOf last
          (makePathTree pub.basepath ((normSlash path).drop pub.urlpath.length)).1))) ∧
    (∀ al target, aliasAt db.aliases (some last.id)
        (splitFirstSeg (fragOf last
          (makePathTree pub.basepath ((normSlash path).drop pub.urlpath.length)).1)).1 = some al →
      aliasNodeIn db al = some target →
      NodePublisher.traverse db pub path true = (.redirect, some last,
        some (redirectTarget pub last target (fragOf last
          (makePathTree pub.basepath ((normSlash path).drop pub.urlpath.length)).1)))) ∧
    (NodePublisher.traverse db pub path false = (.subMatch, some last,
      some (us "/" ++ fragOf last
        (makePathTree pub.basepath ((normSlash path).drop pub.urlpath.length)).1))) := by
  have htail : ∀ r : Bool, NodePublisher.traverse db pub path r
      = traverseTail db pub last
        (makePathTree pub.basepath ((normSlash path).drop pub.urlpath.length)).1 r := by
    intro r
    rw [traverse_toRel db pub path r hpre, traverseRel_last db pub _ r last hlast,
      if_neg hne, if_neg hlen]
  refine ⟨?_, ?_, ?_, ?_⟩
  · intro hal
    rw [htail true]
    simp only [traverseTail, hal]
    simp
  · intro al hal han
    rw [htail true]
    simp only [traverseTail, hal, han]
    simp
  · intro al target hal hat
    rw [htail true]
    simp only [traverseTail, hal, hat]
    simp
  · rw [htail false]
    simp only [traverseTail]
    rfl

/-- The renamed store: `node2` renamed to `nodeX` (its subtree follows). -/
def fxRenamedDb : NodeDB := setNameState fxDb 2 (some (us "nodeX"))
def fxNode2X : DNode := ⟨2, us "nodeX", some 0, 0, us "/nodeX", us "node", none⟩

/-- Witness for C2, the after-a-rename scenario of the claim: renaming
`node2` to `nodeX` and traversing the stale `/node2` redirects to `/nodeX`
(parent path + `/` + new name in urlpath coordinates); with redirects
disabled the same request is a PARTIAL match; after deleting `node3`, its
stale path is GONE. -/
theorem C2_witness :
    NodePublisher.traverse fxRenamedDb fxRootPub (us "/node2") true
      = (.redirect, some fxRoot, some (us "/nodeX")) ∧
    NodePublisher.traverse fxRenamedDb fxRootPub (us "/node2") false
      = (.subMatch, some fxRoot, some (us "/node2")) ∧
    NodePublisher.traverse (deleteNode fxDb 3) fxRootPub (us "/node2/node3") true
      = (.gone, some fxNode2, some (us "/node3")) ∧
    NodePublisher.traverse fxDb fxRootPub (us "/nodeY") true
      = (.subMatch, some fxRoot, some (us "/nodeY")) := by
  refine ⟨?_, ?_, ?_, ?_⟩
  · have h := (C2_traverse_alias_cases fxRenamedDb fxRootPub (us "/node2") fxRoot
      (by decide) (by decide) (by decide) (by decide)).2.2.1
      ⟨some 0, us "node2", some 2⟩ fxNode2X (by decide) (by decide)
    rw [h]
    decide
  · have h := (C2_traverse_alias_cases fxRenamedDb fxRootPub (us "/node2") fxRoot
      (by decide) (by decide) (by decide) (by decide)).2.2.2
    rw [h]
    decide
  · have h := (C2_traverse_alias_cases (deleteNode fxDb 3) fxRootPub (us "/node2/node3")
      fxNode2 (by decide) (by decide) (by decide) (by decide)).2.1
      ⟨some 2, us "node3", none⟩ (by decide) (by decide)
    rw [h]
    decide
  · have h := (C2_traverse_alias_cases fxDb fxRootPub (us "/nodeY") fxRoot
      (by decide) (by decide) (by decide) (by decide)).1 (by decide)
    rw [h]
    decide
